import Mathlib

/-!
Verification development for the Fruitell trainer (`fruitell_train.py`).

Modelling conventions:
* Python floats are modelled as exact rationals (`ℚ`), Python ints as `ℤ`.
  Binary floating-point rounding is outside the model.
* Strings are Lean `String`s; all character-level work is done on `List Char`.
  `str.split(",")` and `str.strip()` are modelled by `splitCommas` and
  `pyStrip` below with Python's semantics for a non-empty separator.
* Python `float(s)` / `int(s)` are modelled by `pyFloatCore` / `pyIntCore`
  over the decimal-literal grammar (optional sign, digits, optional fraction,
  optional exponent); the `inf`/`nan`/underscore forms of Python's grammar
  are not modelled, and the model has no signed zero.
* `try`/`except` blocks are modelled with `Option`/`Except`: an exception
  inside a guarded region becomes `none`, a caught exception is discarded.
* Formatting `f"{v:.Nf}"` is modelled by `fmtFixed`, which rounds the exact
  decimal value half-to-even at `N` places.
-/

namespace Fruitell

/-- One decoded device reading: the dictionary produced by
`parse_device_csv_line` (`fruitell_train.py` lines 53-61). -/
structure TelemetryRecord where
  ts_ms : ℤ
  echo_us : ℚ
  mad_us : ℚ
  fresh_pct : ℚ
  conf_pct : ℚ
  fresh_anchor : ℚ
  spoil_anchor : ℚ
deriving DecidableEq

/-- One labeled calibration point: the `Sample` dataclass (lines 28-33). -/
structure Sample where
  echo_us : ℚ
  label : ℤ
  fresh_anchor : ℚ
  spoil_anchor : ℚ
deriving DecidableEq

/-! ## Echo normalizer (`scale_echo`, lines 81-89) -/

/-- Line 82: `if fa == sa: sa = fa + 1.0`. -/
def perturbSpoil (fa sa : ℚ) : ℚ := if fa = sa then fa + 1 else sa

/-- Line 83, first component of `lo, hi = (fa, sa) if fa < sa else (sa, fa)`,
taken after the perturbation of line 82. -/
def scaleLo (fa sa : ℚ) : ℚ :=
  if fa < perturbSpoil fa sa then fa else perturbSpoil fa sa

/-- Line 83, second component. -/
def scaleHi (fa sa : ℚ) : ℚ :=
  if fa < perturbSpoil fa sa then perturbSpoil fa sa else fa

/-- Line 84: `span = hi - lo`, the divisor used by `scale_echo`. -/
def echo_span (fa sa : ℚ) : ℚ := scaleHi fa sa - scaleLo fa sa

/-- Line 86: `x = 0.0 if x < 0 else (1.0 if x > 1 else x)`. -/
def clampPy (x : ℚ) : ℚ := if x < 0 then 0 else if 1 < x then 1 else x

/-- Lines 81-89, `scale_echo(echo_us, fa, sa)`: perturb a degenerate spoil
anchor, order the anchors, clamp the affine position of the echo between
them, and invert when `fa < sa` (after the perturbation). -/
def scale_echo (echo_us fa sa : ℚ) : ℚ :=
  if fa < perturbSpoil fa sa then
    1 - clampPy ((echo_us - scaleLo fa sa) / echo_span fa sa)
  else clampPy ((echo_us - scaleLo fa sa) / echo_span fa sa)

/-- The Echo Normalizer exactly as the specification words it: if the two
anchors are numerically equal, perturb the spoil anchor by `+1`; compute
`lo = min(anchors)`, `hi = max(anchors)`, `span = hi - lo`,
`x = clamp((echo - lo) / span, 0, 1)`; if `fresh_anchor < spoil_anchor`,
invert `x` to `1 - x`.  Written from the specification text for comparison
with `scale_echo`, which is translated from the source. -/
def normalize_spec (echo fa sa : ℚ) : ℚ :=
  let sa2 := if fa = sa then fa + 1 else sa
  let lo := min fa sa2
  let hi := max fa sa2
  let x := min (max ((echo - lo) / (hi - lo)) 0) 1
  if fa < sa2 then 1 - x else x

/-! ## Decimal strings: digits, Python `float()` / `int()`, `"%.Nf"` -/

/-- The character for a single decimal digit. -/
def digitChar (n : ℕ) : Char := Char.ofNat (48 + n)

/-- Numeric value of a decimal digit character. -/
def digitVal (c : Char) : ℕ := c.toNat - 48

/-- Decimal digits of `n`, most significant first; fuel-based so that it is
structurally recursive (the fuel is irrelevant as soon as it exceeds `n`). -/
def natDigitsAux : ℕ → ℕ → List Char
  | 0, _ => []
  | fuel + 1, n =>
    if n < 10 then [digitChar n]
    else natDigitsAux fuel (n / 10) ++ [digitChar (n % 10)]

/-- Decimal digits of `n`, most significant first. -/
def natDigits (n : ℕ) : List Char := natDigitsAux (n + 1) n

/-- Value of a string of decimal digits, as Python's number parsing reads it. -/
def natFromDigits (cs : List Char) : ℕ :=
  cs.foldl (fun a c => 10 * a + digitVal c) 0

/-- Split a character list into its maximal leading run of decimal digits
and the remainder. -/
def takeDigits : List Char → List Char × List Char
  | [] => ([], [])
  | c :: cs =>
    if c.isDigit then (c :: (takeDigits cs).1, (takeDigits cs).2)
    else ([], c :: cs)

/-- Consume one optional leading sign, returning the sign as `±1`. -/
def pySignZ (cs : List Char) : ℤ × List Char :=
  match cs with
  | c :: t => if c = '+' then (1, t) else if c = '-' then (-1, t) else (1, cs)
  | [] => (1, [])

/-- Consume an optional `.`-prefixed fraction part. -/
def pyFracPart (cs : List Char) : List Char × List Char :=
  match cs with
  | '.' :: t => takeDigits t
  | _ => ([], cs)

/-- Trailing exponent of a Python float literal: either end of input, or
`e`/`E`, an optional sign and a non-empty run of digits ending the input. -/
def pyExpTail (v : ℚ) (ed rest : List Char) (es : ℤ) : Option ℚ :=
  if ed = [] ∨ rest ≠ [] then none
  else some (v * (10 : ℚ) ^ (es * (natFromDigits ed : ℤ)))

/-- Exponent stage of Python float parsing. -/
def pyExp (v : ℚ) (cs : List Char) : Option ℚ :=
  match cs with
  | [] => some v
  | c :: t =>
    if c = 'e' ∨ c = 'E' then
      pyExpTail v (takeDigits (pySignZ t).2).1 (takeDigits (pySignZ t).2).2
        (pySignZ t).1
    else none

/-- Mantissa stage of Python float parsing: at least one digit must be
present across the integer and fraction parts. -/
def pyFloatMant (sg : ℤ) (ip fp rest : List Char) : Option ℚ :=
  if ip = [] ∧ fp = [] then none
  else
    pyExp ((sg : ℚ) * ((natFromDigits ip : ℚ) +
      (natFromDigits fp : ℚ) / 10 ^ fp.length)) rest

/-- Python `float(s)` on a stripped character list: optional sign, digits,
optional `.digits`, optional exponent; anything else raises, modelled as
`none`. -/
def pyFloatCore (cs : List Char) : Option ℚ :=
  pyFloatMant (pySignZ cs).1 (takeDigits (pySignZ cs).2).1
    (pyFracPart (takeDigits (pySignZ cs).2).2).1
    (pyFracPart (takeDigits (pySignZ cs).2).2).2

/-- Python `int(s)` on a stripped character list: optional sign and a
non-empty run of digits ending the input. -/
def pyIntCore (cs : List Char) : Option ℤ :=
  if (takeDigits (pySignZ cs).2).1 = [] ∨ (takeDigits (pySignZ cs).2).2 ≠ [] then
    none
  else some ((pySignZ cs).1 * (natFromDigits (takeDigits (pySignZ cs).2).1 : ℤ))

/-- Floor of a rational, written so that the kernel can evaluate it
(the denominator is positive, so Euclidean division of the numerator is
the floor). -/
def qfloor (q : ℚ) : ℤ := Int.ediv q.num q.den

/-- Round a rational to the nearest integer, ties to even: the rounding
used by Python's fixed-point formatting on exactly representable values. -/
def rhe (q : ℚ) : ℤ :=
  if q - qfloor q < 1 / 2 then qfloor q
  else if 1 / 2 < q - qfloor q then qfloor q + 1
  else if qfloor q % 2 = 0 then qfloor q else qfloor q + 1

/-- The value of `q` rounded to `p` decimal places. -/
def roundFixed (p : ℕ) (q : ℚ) : ℚ := (rhe (q * 10 ^ p) : ℚ) / 10 ^ p

/-- Left-pad a digit run with zeros to width `p`. -/
def padZeros (p : ℕ) (cs : List Char) : List Char :=
  List.replicate (p - cs.length) '0' ++ cs

/-- Character list of `f"{q:.pf}"`: optional minus sign, integer digits,
a dot, exactly `p` fraction digits (for `p ≥ 1`, the only uses here). -/
def fmtFixedL (p : ℕ) (q : ℚ) : List Char :=
  (if rhe (q * 10 ^ p) < 0 then ['-'] else []) ++
    natDigits ((rhe (q * 10 ^ p)).natAbs / 10 ^ p) ++
    '.' :: padZeros p (natDigits ((rhe (q * 10 ^ p)).natAbs % 10 ^ p))

/-- Python `f"{q:.pf}"` as a string. -/
def fmtFixed (p : ℕ) (q : ℚ) : String := String.mk (fmtFixedL p q)

/-- Character list of Python `str(n)` for an int. -/
def intToStrL (n : ℤ) : List Char :=
  (if n < 0 then ['-'] else []) ++ natDigits n.natAbs

/-- Python `str(n)` for an int. -/
def intToStr (n : ℤ) : String := String.mk (intToStrL n)

/-- Python `int(float_value)`: truncation toward zero. -/
def pyTruncF (q : ℚ) : ℤ := if 0 ≤ q then qfloor q else -qfloor (-q)

/-! ## Line protocol parser (`parse_device_csv_line`, lines 47-63) -/

/-- Python `line.split(",")` at character level: fields between commas,
with empty fields preserved and `[""]` for the empty string. -/
def splitCommas : List Char → List (List Char)
  | [] => [[]]
  | c :: cs =>
    if c = ',' then [] :: splitCommas cs
    else
      match splitCommas cs with
      | g :: gs => (c :: g) :: gs
      | [] => [[c]]

/-- Python `s.strip()` at character level (ASCII whitespace). -/
def pyStrip (cs : List Char) : List Char :=
  ((cs.dropWhile Char.isWhitespace).reverse.dropWhile Char.isWhitespace).reverse

/-- Line 50: `parts = [p.strip() for p in line.split(",")]`. -/
def csvParts (line : String) : List (List Char) :=
  (splitCommas line.toList).map pyStrip

/-- Lines 47-63, `parse_device_csv_line`: reject fewer than 7 fields,
then parse the first seven fields (`ts`, `echo`, `mad`, `fresh`, `conf`,
`F`, `S`) as numbers; any parse failure is caught by the `except` and
yields `None`.  The timestamp is `int(float(parts[0]))`, truncation toward
zero.  The function is total: no input raises. -/
def parse_device_csv_line (line : String) : Option TelemetryRecord :=
  if (csvParts line).length < 7 then none
  else
    match pyFloatCore ((csvParts line).getD 0 []),
        pyFloatCore ((csvParts line).getD 1 []),
        pyFloatCore ((csvParts line).getD 2 []),
        pyFloatCore ((csvParts line).getD 3 []),
        pyFloatCore ((csvParts line).getD 4 []),
        pyFloatCore ((csvParts line).getD 5 []),
        pyFloatCore ((csvParts line).getD 6 []) with
    | some t, some e, some m, some fr, some c, some fa, some sa =>
        some ⟨pyTruncF t, e, m, fr, c, fa, sa⟩
    | _, _, _, _, _, _, _ => none

/-! ## Sample store (`save_csv` lines 140-147, `load_csv` lines 149-160)

The `csv` module's own quoting layer is byte-level library code; the store
is modelled at the row level: a file is a list of rows, each row a list of
cell strings, exactly the values handed to `csv.writer` / read back by
`csv.DictReader`. -/

/-- Line 144: the header row. -/
def storeHeader : List String :=
  ["echo_us", "label", "fresh_anchor", "spoil_anchor"]

/-- Line 146: one data row, floats at 3 decimals, the label via `str(int)`. -/
def saveRow (r : Sample) : List String :=
  [fmtFixed 3 r.echo_us, intToStr r.label,
    fmtFixed 3 r.fresh_anchor, fmtFixed 3 r.spoil_anchor]

/-- Lines 140-147, `save_csv`: header row then one row per sample, in
order.  (Directory creation and the file handle are I/O outside the
model.) -/
def save_csv (rows : List Sample) : List (List String) :=
  storeHeader :: rows.map saveRow

/-- `csv.DictReader` cell lookup: `row[name]` — `none` models the raised
`KeyError`/`TypeError` when the column is absent or the row is short. -/
def getField (hdr row : List String) (name : String) : Option String :=
  (hdr.findIdx? (fun h => h == name)).bind (fun i => row.get? i)

/-- `row.get(name, dflt)`: the default applies when the header lacks the
column; a row merely shorter than the header still yields `None`, whose
`float()` raises (modelled as `none`). -/
def getFieldD (hdr row : List String) (name dflt : String) : Option String :=
  match hdr.findIdx? (fun h => h == name) with
  | none => some dflt
  | some i => row.get? i

/-- Lines 154-159: one `Sample(...)` built from a `DictReader` row; any
failed numeric parse raises, aborting the whole load. -/
def parseSampleRow (hdr row : List String) : Option Sample := do
  let es ← getField hdr row "echo_us"
  let e ← pyFloatCore es.toList
  let ls ← getField hdr row "label"
  let l ← pyIntCore ls.toList
  let fs ← getFieldD hdr row "fresh_anchor" "1400"
  let fa ← pyFloatCore fs.toList
  let ss ← getFieldD hdr row "spoil_anchor" "2600"
  let sa ← pyFloatCore ss.toList
  pure ⟨e, l, fa, sa⟩

/-- Lines 149-160, `load_csv`: the first row is the header, every further
row becomes a `Sample` in file order; a malformed row makes the whole load
fail. -/
def load_csv (table : List (List String)) : Option (List Sample) :=
  match table with
  | [] => some []
  | hdr :: rows => rows.mapM (parseSampleRow hdr)

/-- A sample with its three float fields rounded to 3 decimals, the image
of one save/load round trip. -/
def round3Sample (r : Sample) : Sample :=
  ⟨roundFixed 3 r.echo_us, r.label,
    roundFixed 3 r.fresh_anchor, roundFixed 3 r.spoil_anchor⟩

/-! ## Weight serializer (`emit_W_line`, lines 108-112) -/

/-- Python `",".join(l)`. -/
def joinComma : List String → String
  | [] => ""
  | [x] => x
  | x :: xs => x ++ "," ++ joinComma xs

/-- Lines 108-112, `emit_W_line`: a 10-slot weight vector with only slot 0
set, then the bias, all at 6 decimal places behind the `W:` prefix. -/
def emit_W_line (w_fmed b : ℚ) : String :=
  "W:" ++ joinComma (((List.replicate 10 (0 : ℚ)).set 0 w_fmed).map (fmtFixed 6))
    ++ "," ++ fmtFixed 6 b

/-- Drop one leading minus sign if present. -/
def stripNeg (cs : List Char) : List Char :=
  if cs.head? = some '-' then cs.tail else cs

/-- Shape check for a fixed-point numeric field: after an optional minus
sign, a non-empty run of digits, a dot, and exactly `p` digits. -/
def isFixedP (p : ℕ) (cs : List Char) : Bool :=
  !(takeDigits (stripNeg cs)).1.isEmpty &&
    match (takeDigits (stripNeg cs)).2 with
    | '.' :: fp => fp.all Char.isDigit && fp.length == p
    | _ => false

/-! ## Capture consumer loop (`capture_mode`, lines 259-318) -/

/-- The consumer loop's mutable state: the `rec_current` pending-candidate
slot (line 261) and the accumulated labeled `rows` (line 259).  The slot is
an `Option`, so it holds nothing or exactly one record by construction. -/
structure CapState where
  rec_current : Option TelemetryRecord
  rows : List Sample
deriving DecidableEq

/-- Line 272: the confidence used for the threshold test — the
device-reported confidence if positive, else the MAD-derived proxy
`max(0, (1 - mad/(120*2)) * 100)`. -/
def conf_of (r : TelemetryRecord) : ℚ :=
  if r.conf_pct > 0 then r.conf_pct
  else max 0 ((1 - r.mad_us / (120 * 2)) * 100)

/-- Lines 269-279: consuming one telemetry record — when its confidence
meets `--min-conf` the record overwrites the pending-candidate slot
(the status-line rendering is I/O outside the model), otherwise the state
is unchanged. -/
def consume_record (minConf : ℚ) (st : CapState) (r : TelemetryRecord) :
    CapState :=
  if conf_of r ≥ minConf then { st with rec_current := some r } else st

/-- Lines 289-302: consuming one keypress — `f`/`s` with a pending
candidate appends one labeled sample (label 1 for `f`, 0 for `s`) and
clears the slot; with no pending candidate only a message is printed;
other keys leave the state unchanged (`q` exits the loop). -/
def consume_key (st : CapState) (k : Char) : CapState :=
  if k = 'f' ∨ k = 's' then
    match st.rec_current with
    | some r =>
        ⟨none, st.rows ++
          [⟨r.echo_us, if k = 'f' then 1 else 0, r.fresh_anchor, r.spoil_anchor⟩]⟩
    | none => st
  else st

/-! ## Session teardown (`capture_mode` lines 312-318) -/

/-- Whether a modelled Python call raised. -/
inductive PyOutcome
  | ok
  | exn

/-- Teardown failure that escapes the session. -/
inductive SessionErr
  | closeFailed

/-- Line 313: `ser.write(b"TRAIN:OFF\n")`, which may raise. -/
def tryWriteOff (writeFails : Bool) : PyOutcome :=
  if writeFails then PyOutcome.exn else PyOutcome.ok

/-- Line 314: `except: pass` — both outcomes of the write are discarded. -/
def swallow : PyOutcome → Unit
  | PyOutcome.ok => ()
  | PyOutcome.exn => ()

/-- Line 315: `ser.close()`, outside any `try`; a failure escapes. -/
def closeSer (closeFails : Bool) : Except SessionErr Unit :=
  if closeFails then Except.error SessionErr.closeFailed else Except.ok ()

/-- Lines 312-318: the `finally` block of `capture_mode` followed by the
`save_csv` call — the `TRAIN:OFF` write is guarded by `try/except: pass`,
the close is not, and the samples reach the store only when control flows
past the `finally` block. -/
def capture_finally (writeFails closeFails : Bool) (rows : List Sample) :
    Except SessionErr (List (List String)) :=
  let _ := swallow (tryWriteOff writeFails)
  match closeSer closeFails with
  | Except.error e => Except.error e
  | Except.ok _ => Except.ok (save_csv rows)

/-! ## Model fitter (`train_from_csv`, lines 320-337) -/

/-- Insertion of one element into an ascending list. -/
def insertSorted (x : ℚ) : List ℚ → List ℚ
  | [] => [x]
  | y :: ys => if x ≤ y then x :: y :: ys else y :: insertSorted x ys

/-- Ascending sort (`np.sort`'s result on rationals). -/
def sortQ (l : List ℚ) : List ℚ := l.foldr insertSorted []

/-- `np.median`: sort ascending; middle element for odd length, mean of
the two middle elements for even length. -/
def npMedian (l : List ℚ) : ℚ :=
  if (sortQ l).length % 2 = 1 then (sortQ l).getD ((sortQ l).length / 2) 0
  else
    ((sortQ l).getD ((sortQ l).length / 2 - 1) 0 +
      (sortQ l).getD ((sortQ l).length / 2) 0) / 2

/-- The computation stages of `train_from_csv` that actually execute,
in order: anchor medians (lines 325-326), normalization (line 327), the
logistic solver (line 331). -/
inductive TrainStep
  | anchors
  | normalize
  | solve
deriving DecidableEq

/-- What `train_from_csv` hands to `fit_logistic_1d`: the anchor medians
and the normalized feature and label vectors. -/
structure FitInput where
  fa : ℚ
  sa : ℚ
  X : List ℚ
  y : List ℤ
deriving DecidableEq

/-- Lines 320-337, `train_from_csv`, up to the solver call: empty input
returns early ("No rows to train"); otherwise the anchor medians and the
normalized features are computed, and only then is the two-class check
made ("Need both classes.", no model); with both classes present the
solver runs on the computed features.  The solver's floating-point
internals (`np.exp` / scikit-learn) are outside the rational model; its
invocation is marked by the `TrainStep.solve` stage.  The first component
records which stages executed, the second is the fit input when fitting
proceeds (`none` models the error returns). -/
def train_from_csv (rows : List Sample) : List TrainStep × Option FitInput :=
  if rows = [] then ([], none)
  else
    if ((rows.map (fun r => r.label)).dedup).length < 2 then
      ([TrainStep.anchors, TrainStep.normalize], none)
    else
      ([TrainStep.anchors, TrainStep.normalize, TrainStep.solve],
        some ⟨npMedian (rows.map (fun r => r.fresh_anchor)),
          npMedian (rows.map (fun r => r.spoil_anchor)),
          rows.map (fun r =>
            scale_echo r.echo_us (npMedian (rows.map (fun s => s.fresh_anchor)))
              (npMedian (rows.map (fun s => s.spoil_anchor)))),
          rows.map (fun r => r.label)⟩)

/-! ## Theorems -/

theorem clampPy_eq_clamp (x : ℚ) : clampPy x = min (max x 0) 1 := by
  simp only [clampPy, min_def, max_def]
  split_ifs <;> linarith

theorem clampPy_nonneg (x : ℚ) : 0 ≤ clampPy x := by
  simp only [clampPy]; split_ifs <;> linarith

theorem clampPy_le_one (x : ℚ) : clampPy x ≤ 1 := by
  simp only [clampPy]; split_ifs <;> linarith

theorem perturbSpoil_self (a : ℚ) : perturbSpoil a a = a + 1 := by
  simp [perturbSpoil]

theorem perturbSpoil_ne (fa sa : ℚ) (h : fa ≠ sa) : perturbSpoil fa sa = sa := by
  simp [perturbSpoil, h]

/-- C1: `scale_echo` agrees everywhere with the specification's normalizer
(perturb an equal spoil anchor by `+1`, clamp the affine position between
`min`/`max` of the anchors, invert exactly when `fa < sa` after the
perturbation); its result always lies in `[0,1]`; and the span it divides
by is strictly positive, so the computation never divides by zero. -/
theorem scale_echo_meets_spec (e fa sa : ℚ) :
    scale_echo e fa sa = normalize_spec e fa sa ∧
    0 ≤ scale_echo e fa sa ∧ scale_echo e fa sa ≤ 1 ∧
    0 < echo_span fa sa := by
  rcases eq_or_ne fa sa with h | h
  · subst h
    have hlt : fa < fa + 1 := lt_add_one fa
    have hlo : scaleLo fa fa = fa := by
      simp only [scaleLo, perturbSpoil_self, if_pos hlt]
    have hspan : echo_span fa fa = 1 := by
      simp only [echo_span, scaleHi, scaleLo, perturbSpoil_self, if_pos hlt]
      ring
    have hse : scale_echo e fa fa = 1 - clampPy ((e - fa) / 1) := by
      simp only [scale_echo, perturbSpoil_self, if_pos hlt, hlo, hspan]
    have hps : (if fa = fa then fa + 1 else fa) = fa + 1 := if_pos rfl
    have hns : normalize_spec e fa fa = 1 - min (max ((e - fa) / 1) 0) 1 := by
      simp only [normalize_spec, if_true, ite_true, if_pos hlt,
        min_eq_left hlt.le, max_eq_right hlt.le, add_sub_cancel_left]
    refine ⟨?_, ?_, ?_, ?_⟩
    · rw [hse, hns, clampPy_eq_clamp]
    · rw [hse]; have := clampPy_le_one ((e - fa) / 1); linarith
    · rw [hse]; have := clampPy_nonneg ((e - fa) / 1); linarith
    · rw [hspan]; norm_num
  · have hp : perturbSpoil fa sa = sa := perturbSpoil_ne fa sa h
    rcases lt_or_gt_of_ne h with hlt | hgt
    · have hlo : scaleLo fa sa = fa := by
        simp only [scaleLo, hp, if_pos hlt]
      have hspan : echo_span fa sa = sa - fa := by
        simp only [echo_span, scaleHi, scaleLo, hp, if_pos hlt]
      have hse : scale_echo e fa sa = 1 - clampPy ((e - fa) / (sa - fa)) := by
        simp only [scale_echo, hp, if_pos hlt, hlo, hspan]
      have hns : normalize_spec e fa sa =
          1 - min (max ((e - fa) / (sa - fa)) 0) 1 := by
        simp only [normalize_spec, if_neg h, if_pos hlt,
          min_eq_left hlt.le, max_eq_right hlt.le]
      refine ⟨?_, ?_, ?_, ?_⟩
      · rw [hse, hns, clampPy_eq_clamp]
      · rw [hse]; have := clampPy_le_one ((e - fa) / (sa - fa)); linarith
      · rw [hse]; have := clampPy_nonneg ((e - fa) / (sa - fa)); linarith
      · rw [hspan]; linarith
    · have hc : ¬ fa < sa := not_lt.mpr hgt.le
      have hlo : scaleLo fa sa = sa := by
        simp only [scaleLo, hp, if_neg hc]
      have hspan : echo_span fa sa = fa - sa := by
        simp only [echo_span, scaleHi, scaleLo, hp, if_neg hc]
      have hse : scale_echo e fa sa = clampPy ((e - sa) / (fa - sa)) := by
        simp only [scale_echo, hp, if_neg hc, hlo, hspan]
      have hns : normalize_spec e fa sa =
          min (max ((e - sa) / (fa - sa)) 0) 1 := by
        simp only [normalize_spec, if_neg h, if_neg hc,
          min_eq_right hgt.le, max_eq_left hgt.le]
      refine ⟨?_, ?_, ?_, ?_⟩
      · rw [hse, hns, clampPy_eq_clamp]
      · rw [hse]; exact clampPy_nonneg _
      · rw [hse]; exact clampPy_le_one _
      · rw [hspan]; linarith

/-- C10: with equal anchors the perturbation makes the (updated) spoil
anchor exceed the fresh anchor, so the inversion branch is always taken:
`scale_echo e a a = 1 - clamp(e - a, 0, 1)`, and in particular
`scale_echo a a a = 1`. -/
theorem scale_echo_degenerate (e a : ℚ) :
    scale_echo e a a = 1 - clampPy (e - a) ∧ scale_echo a a a = 1 := by
  have hlt : a < a + 1 := lt_add_one a
  have hlo : scaleLo a a = a := by
    simp only [scaleLo, perturbSpoil_self, if_pos hlt]
  have hspan : echo_span a a = 1 := by
    simp only [echo_span, scaleHi, scaleLo, perturbSpoil_self, if_pos hlt]
    ring
  have h1 : ∀ x : ℚ, scale_echo x a a = 1 - clampPy (x - a) := by
    intro x
    simp only [scale_echo, perturbSpoil_self, if_pos hlt, hlo, hspan, div_one]
  refine ⟨h1 e, ?_⟩
  rw [h1 a]
  have hz : clampPy (a - a) = 0 := by
    simp only [clampPy, sub_self]
    norm_num
  rw [hz]; ring

/-- A telemetry record with a positive device confidence, for exercising
the capture-loop theorems. -/
def demoRec : TelemetryRecord := ⟨0, 2000, 5, 0, 80, 1400, 2600⟩

/-- A telemetry record with zero device confidence, so the MAD proxy is
used. -/
def demoRec2 : TelemetryRecord := ⟨0, 2000, 120, 0, 0, 1400, 2600⟩

/-- C3: in the consumer loop, `f`/`s` with a pending candidate appends
exactly one labeled sample carrying the candidate's echo and anchors
(label 1 for `f`, 0 for `s`) and clears the slot; `f`/`s` with an empty
slot changes nothing; and a record meeting the confidence threshold
overwrites the slot with exactly that record regardless of its previous
contents (the slot is an `Option`, so it never holds more than one
record). -/
theorem capture_key_slot_behavior
    (st : CapState) (r : TelemetryRecord) (minConf : ℚ) (k : Char) :
    (st.rec_current = some r →
      consume_key st 'f' =
        ⟨none, st.rows ++ [⟨r.echo_us, 1, r.fresh_anchor, r.spoil_anchor⟩]⟩ ∧
      consume_key st 's' =
        ⟨none, st.rows ++ [⟨r.echo_us, 0, r.fresh_anchor, r.spoil_anchor⟩]⟩) ∧
    (st.rec_current = none → k = 'f' ∨ k = 's' → consume_key st k = st) ∧
    (minConf ≤ conf_of r →
      (consume_record minConf st r).rec_current = some r) := by
  have hsf : ¬ ('s' : Char) = 'f' := by decide
  refine ⟨?_, ?_, ?_⟩
  · intro h
    constructor
    · simp only [consume_key, h, true_or, or_true, if_true, ite_true]
    · simp only [consume_key, h, true_or, or_true, if_true, ite_true,
        if_neg hsf]
  · intro h hk
    simp only [consume_key, if_pos hk, h]
  · intro h
    simp only [consume_record, if_pos h]

theorem capture_key_slot_behavior_witness :
    consume_key ⟨some demoRec, []⟩ 'f' = ⟨none, [⟨2000, 1, 1400, 2600⟩]⟩ ∧
    consume_key ⟨none, []⟩ 's' = ⟨none, []⟩ ∧
    (consume_record 0 ⟨none, []⟩ demoRec).rec_current = some demoRec := by
  refine ⟨?_, ?_, ?_⟩
  · exact ((capture_key_slot_behavior ⟨some demoRec, []⟩ demoRec 0 'f').1 rfl).1
  · exact (capture_key_slot_behavior ⟨none, []⟩ demoRec 0 's').2.1 rfl
      (Or.inr rfl)
  · exact (capture_key_slot_behavior ⟨none, []⟩ demoRec 0 's').2.2 (by decide)

/-- C8: the confidence used for the threshold test is the device-reported
`conf_pct` when it is strictly positive, else the proxy
`max(0, (1 - mad/240) * 100)`; a record meeting the `--min-conf` threshold
overwrites the pending-candidate slot and one below it leaves the state
untouched. -/
theorem capture_confidence_behavior
    (minConf : ℚ) (st : CapState) (r : TelemetryRecord) :
    (0 < r.conf_pct → conf_of r = r.conf_pct) ∧
    (¬ 0 < r.conf_pct →
      conf_of r = max 0 ((1 - r.mad_us / 240) * 100)) ∧
    (minConf ≤ conf_of r →
      consume_record minConf st r = { st with rec_current := some r }) ∧
    (conf_of r < minConf → consume_record minConf st r = st) := by
  refine ⟨?_, ?_, ?_, ?_⟩
  · intro h; simp only [conf_of, if_pos h]
  · intro h
    simp only [conf_of, if_neg h]
    norm_num
  · intro h; simp only [consume_record, if_pos h]
  · intro h; simp only [consume_record, if_neg (not_le.mpr h)]

theorem capture_confidence_behavior_witness :
    conf_of demoRec2 = max 0 ((1 - demoRec2.mad_us / 240) * 100) ∧
    consume_record 50 ⟨none, []⟩ demoRec = ⟨some demoRec, []⟩ := by
  constructor
  · exact (capture_confidence_behavior 50 ⟨none, []⟩ demoRec2).2.1 (by decide)
  · exact (capture_confidence_behavior 50 ⟨none, []⟩ demoRec).2.2.1 (by decide)

/-- C9 counterexample: when `ser.close()` itself fails, the teardown does
raise past the session boundary (the close is outside the `try`), so the
labeled samples are not handed to the store — contradicting the claim
that teardown never raises even if the close fails. -/
theorem capture_finally_close_failure :
    capture_finally false true [] = Except.error SessionErr.closeFailed ∧
    ∀ out : List (List String), capture_finally false true [] ≠ Except.ok out := by
  constructor
  · rfl
  · intro out h
    exact Except.noConfusion h

/-- C9 amended: a failure of the `TRAIN:OFF` write is swallowed by its
`except: pass` — for any write outcome, teardown completes and the samples
reach the store — but a failure of `ser.close()` propagates out of the
session and the samples are not saved. -/
theorem capture_finally_behavior
    (writeFails closeFails : Bool) (rows : List Sample) :
    capture_finally writeFails closeFails rows =
      if closeFails then Except.error SessionErr.closeFailed
      else Except.ok (save_csv rows) := by
  cases closeFails <;> rfl

theorem natDigitsAux_irrel (f1 : ℕ) : ∀ f2 n, n < f1 → n < f2 →
    natDigitsAux f1 n = natDigitsAux f2 n := by
  induction f1 with
  | zero => intro f2 n h1 _; exact absurd h1 (Nat.not_lt_zero n)
  | succ f ih =>
    intro f2 n h1 h2
    cases f2 with
    | zero => exact absurd h2 (Nat.not_lt_zero n)
    | succ g =>
      simp only [natDigitsAux]
      by_cases h10 : n < 10
      · rw [if_pos h10, if_pos h10]
      · rw [if_neg h10, if_neg h10]
        have hd : n / 10 < n := Nat.div_lt_self (by omega) (by norm_num)
        rw [ih g (n / 10) (by omega) (by omega)]

theorem natDigits_eq (n : ℕ) :
    natDigits n = if n < 10 then [digitChar n]
      else natDigits (n / 10) ++ [digitChar (n % 10)] := by
  show (if n < 10 then [digitChar n]
      else natDigitsAux n (n / 10) ++ [digitChar (n % 10)]) = _
  by_cases h : n < 10
  · rw [if_pos h, if_pos h]
  · have hd : n / 10 < n := Nat.div_lt_self (by omega) (by norm_num)
    rw [if_neg h, if_neg h,
      natDigitsAux_irrel n (n / 10 + 1) (n / 10) hd (Nat.lt_succ_self _)]
    rfl

theorem natDigits_ne_nil (n : ℕ) : natDigits n ≠ [] := by
  rw [natDigits_eq]
  by_cases h : n < 10
  · rw [if_pos h]; simp
  · rw [if_neg h]; simp

theorem digitChar_isDigit (d : ℕ) (h : d < 10) : (digitChar d).isDigit = true := by
  interval_cases d <;> decide

theorem digitVal_digitChar (d : ℕ) (h : d < 10) : digitVal (digitChar d) = d := by
  interval_cases d <;> decide

theorem natDigits_isDigit (n : ℕ) : ∀ c ∈ natDigits n, c.isDigit = true := by
  induction n using Nat.strong_induction_on with
  | _ n ih =>
    rw [natDigits_eq]
    by_cases h : n < 10
    · rw [if_pos h]
      intro c hc
      rw [List.mem_singleton.mp hc]
      exact digitChar_isDigit n h
    · rw [if_neg h]
      intro c hc
      rcases List.mem_append.mp hc with h1 | h2
      · exact ih (n / 10) (Nat.div_lt_self (by omega) (by norm_num)) c h1
      · rw [List.mem_singleton.mp h2]
        exact digitChar_isDigit (n % 10) (Nat.mod_lt _ (by norm_num))

theorem foldl_natDigits (n : ℕ) : ∀ a : ℕ,
    (natDigits n).foldl (fun a c => 10 * a + digitVal c) a =
      a * 10 ^ (natDigits n).length + n := by
  induction n using Nat.strong_induction_on with
  | _ n ih =>
    intro a
    rw [natDigits_eq]
    by_cases h : n < 10
    · rw [if_pos h]
      simp only [List.foldl_cons, List.foldl_nil, List.length_singleton]
      rw [digitVal_digitChar n h, pow_one]
      ring
    · rw [if_neg h]
      rw [List.foldl_append, List.length_append]
      simp only [List.foldl_cons, List.foldl_nil, List.length_singleton]
      rw [ih (n / 10) (Nat.div_lt_self (by omega) (by norm_num)) a,
        digitVal_digitChar (n % 10) (Nat.mod_lt _ (by norm_num))]
      have hdm : 10 * (n / 10) + n % 10 = n := Nat.div_add_mod n 10
      calc 10 * (a * 10 ^ (natDigits (n / 10)).length + n / 10) + n % 10
          = a * (10 ^ (natDigits (n / 10)).length * 10) +
            (10 * (n / 10) + n % 10) := by ring
        _ = a * 10 ^ ((natDigits (n / 10)).length + 1) + n := by
            rw [hdm, pow_succ]

theorem natFromDigits_natDigits (n : ℕ) : natFromDigits (natDigits n) = n := by
  have h := foldl_natDigits n 0
  simpa [natFromDigits] using h

theorem natDigits_len_le (p n : ℕ) (hn : n < 10 ^ p) (hp : 1 ≤ p) :
    (natDigits n).length ≤ p := by
  induction n using Nat.strong_induction_on generalizing p with
  | _ n ih =>
    rw [natDigits_eq]
    by_cases h : n < 10
    · rw [if_pos h]
      simpa using hp
    · rw [if_neg h]
      rw [List.length_append]
      simp only [List.length_singleton]
      have hp2 : 2 ≤ p := by
        by_contra hc
        have hp1 : p = 1 := by omega
        subst hp1
        simp only [pow_one] at hn
        omega
      have hd : n / 10 < 10 ^ (p - 1) := by
        have h10 : (10 : ℕ) ^ p = 10 ^ (p - 1) * 10 := by
          conv_lhs => rw [show p = (p - 1) + 1 by omega]
          rw [pow_succ]
        rw [Nat.div_lt_iff_lt_mul (by norm_num)]
        omega
      have := ih (n / 10) (Nat.div_lt_self (by omega) (by norm_num))
        (p - 1) hd (by omega)
      omega

theorem takeDigits_append (ds rest : List Char)
    (h : ∀ c ∈ ds, c.isDigit = true) :
    takeDigits (ds ++ rest) = (ds ++ (takeDigits rest).1, (takeDigits rest).2) := by
  induction ds with
  | nil => simp
  | cons c ds ihd =>
    have hc : c.isDigit = true := h c (List.mem_cons_self c ds)
    have hds : ∀ x ∈ ds, x.isDigit = true :=
      fun x hx => h x (List.mem_cons_of_mem c hx)
    have hx := ihd hds
    simp only [List.cons_append, takeDigits, hc, if_true, ite_true,
      List.append_eq, hx]

theorem takeDigits_all (ds : List Char) (h : ∀ c ∈ ds, c.isDigit = true) :
    takeDigits ds = (ds, []) := by
  have h2 := takeDigits_append ds [] h
  simpa [takeDigits] using h2

theorem takeDigits_nondigit (c : Char) (cs : List Char)
    (h : c.isDigit = false) : takeDigits (c :: cs) = ([], c :: cs) := by
  simp [takeDigits, h]

theorem natFromDigits_zeros (k : ℕ) (ds : List Char) :
    natFromDigits (List.replicate k '0' ++ ds) = natFromDigits ds := by
  induction k with
  | zero => simp
  | succ k ihk =>
    simp only [List.replicate_succ, List.cons_append, natFromDigits,
      List.foldl_cons] at *
    have h0 : 10 * 0 + digitVal '0' = 0 := rfl
    rw [h0]
    exact ihk

theorem padZeros_length (p : ℕ) (cs : List Char) (h : cs.length ≤ p) :
    (padZeros p cs).length = p := by
  simp only [padZeros, List.length_append, List.length_replicate]
  omega

theorem padZeros_isDigit (p : ℕ) (cs : List Char)
    (h : ∀ c ∈ cs, c.isDigit = true) :
    ∀ c ∈ padZeros p cs, c.isDigit = true := by
  intro c hc
  rcases List.mem_append.mp hc with h1 | h2
  · rw [List.eq_of_mem_replicate h1]; decide
  · exact h c h2

theorem natFromDigits_padZeros (p : ℕ) (cs : List Char) :
    natFromDigits (padZeros p cs) = natFromDigits cs :=
  natFromDigits_zeros _ _

theorem pySignZ_neg (cs : List Char) : pySignZ ('-' :: cs) = (-1, cs) := rfl

theorem pySignZ_digit (c : Char) (cs : List Char) (h : c.isDigit = true) :
    pySignZ (c :: cs) = (1, c :: cs) := by
  have h1 : ¬ c = '+' := by intro e; subst e; exact absurd h (by decide)
  have h2 : ¬ c = '-' := by intro e; subst e; exact absurd h (by decide)
  simp [pySignZ, h1, h2]

theorem pyFloatCore_digits_frac (ip fp : List Char) (hne : ip ≠ [])
    (hip : ∀ c ∈ ip, c.isDigit = true) (hfp : ∀ c ∈ fp, c.isDigit = true) :
    pyFloatCore (ip ++ '.' :: fp) =
      some ((natFromDigits ip : ℚ) +
        (natFromDigits fp : ℚ) / 10 ^ fp.length) := by
  obtain ⟨c, ip', rfl⟩ := List.exists_cons_of_ne_nil hne
  have hc : c.isDigit = true := hip c (List.mem_cons_self _ _)
  have h1 : pySignZ ((c :: ip') ++ '.' :: fp) = (1, (c :: ip') ++ '.' :: fp) := by
    rw [List.cons_append]
    exact pySignZ_digit c _ hc
  have h2 : takeDigits ((c :: ip') ++ '.' :: fp) = (c :: ip', '.' :: fp) := by
    have h3 := takeDigits_append (c :: ip') ('.' :: fp) hip
    rw [takeDigits_nondigit '.' fp (by decide)] at h3
    simpa using h3
  simp only [pyFloatCore, h1, h2]
  have h4 : pyFracPart ('.' :: fp) = takeDigits fp := rfl
  rw [h4, takeDigits_all fp hfp]
  simp only [pyFloatMant, pyExp]
  rw [if_neg (by simp)]
  norm_num

theorem pyFloatCore_neg_digits_frac (ip fp : List Char) (hne : ip ≠ [])
    (hip : ∀ c ∈ ip, c.isDigit = true) (hfp : ∀ c ∈ fp, c.isDigit = true) :
    pyFloatCore ('-' :: (ip ++ '.' :: fp)) =
      some (-((natFromDigits ip : ℚ) +
        (natFromDigits fp : ℚ) / 10 ^ fp.length)) := by
  have h2 : takeDigits (ip ++ '.' :: fp) = (ip, '.' :: fp) := by
    have h3 := takeDigits_append ip ('.' :: fp) hip
    rw [takeDigits_nondigit '.' fp (by decide)] at h3
    simpa using h3
  simp only [pyFloatCore, pySignZ_neg, h2]
  have h4 : pyFracPart ('.' :: fp) = takeDigits fp := rfl
  rw [h4, takeDigits_all fp hfp]
  simp only [pyFloatMant, pyExp]
  rw [if_neg (by simp [hne])]
  push_cast
  ring_nf

theorem pyFloatCore_digits (ds : List Char) (hne : ds ≠ [])
    (hd : ∀ c ∈ ds, c.isDigit = true) :
    pyFloatCore ds = some ((natFromDigits ds : ℚ)) := by
  obtain ⟨c, ds', rfl⟩ := List.exists_cons_of_ne_nil hne
  have hc : c.isDigit = true := hd c (List.mem_cons_self _ _)
  have h1 : pySignZ (c :: ds') = (1, c :: ds') := pySignZ_digit c _ hc
  have h2 : takeDigits (c :: ds') = (c :: ds', []) := takeDigits_all _ hd
  simp only [pyFloatCore, h1, h2]
  have h4 : pyFracPart ([] : List Char) = ([], []) := rfl
  rw [h4]
  simp only [pyFloatMant, pyExp]
  rw [if_neg (by simp)]
  norm_num [natFromDigits]

theorem pyIntCore_digits (ds : List Char) (hne : ds ≠ [])
    (hd : ∀ c ∈ ds, c.isDigit = true) :
    pyIntCore ds = some ((natFromDigits ds : ℤ)) := by
  obtain ⟨c, ds', rfl⟩ := List.exists_cons_of_ne_nil hne
  have hc : c.isDigit = true := hd c (List.mem_cons_self _ _)
  have h1 : pySignZ (c :: ds') = (1, c :: ds') := pySignZ_digit c _ hc
  have h2 : takeDigits (c :: ds') = (c :: ds', []) := takeDigits_all _ hd
  simp only [pyIntCore, h1, h2]
  rw [if_neg (by simp)]
  norm_num

theorem pyIntCore_intToStrL (n : ℤ) : pyIntCore (intToStrL n) = some n := by
  have hd := natDigits_isDigit n.natAbs
  have hne := natDigits_ne_nil n.natAbs
  by_cases hn : n < 0
  · have hl : intToStrL n = '-' :: natDigits n.natAbs := by
      simp only [intToStrL, if_pos hn, List.singleton_append]
    rw [hl]
    simp only [pyIntCore, pySignZ_neg, takeDigits_all _ hd]
    rw [if_neg (by simp [hne])]
    rw [natFromDigits_natDigits]
    congr 1
    omega
  · have hl : intToStrL n = natDigits n.natAbs := by
      simp only [intToStrL, if_neg hn, List.nil_append]
    rw [hl, pyIntCore_digits _ hne hd, natFromDigits_natDigits]
    congr 1
    omega

theorem pyFloatCore_fmtFixedL (p : ℕ) (hp : 1 ≤ p) (q : ℚ) :
    pyFloatCore (fmtFixedL p q) = some (roundFixed p q) := by
  have hmod : (rhe (q * 10 ^ p)).natAbs % 10 ^ p < 10 ^ p :=
    Nat.mod_lt _ (pow_pos (by norm_num) p)
  have hipne := natDigits_ne_nil ((rhe (q * 10 ^ p)).natAbs / 10 ^ p)
  have hipd := natDigits_isDigit ((rhe (q * 10 ^ p)).natAbs / 10 ^ p)
  have hfpd := padZeros_isDigit p _
    (natDigits_isDigit ((rhe (q * 10 ^ p)).natAbs % 10 ^ p))
  have hfplen : (padZeros p (natDigits ((rhe (q * 10 ^ p)).natAbs % 10 ^ p))).length = p :=
    padZeros_length _ _ (natDigits_len_le p _ hmod hp)
  have hval : ((natFromDigits (natDigits ((rhe (q * 10 ^ p)).natAbs / 10 ^ p)) : ℚ) +
      (natFromDigits (padZeros p (natDigits ((rhe (q * 10 ^ p)).natAbs % 10 ^ p))) : ℚ) /
        10 ^ (padZeros p (natDigits ((rhe (q * 10 ^ p)).natAbs % 10 ^ p))).length) =
      ((rhe (q * 10 ^ p)).natAbs : ℚ) / 10 ^ p := by
    rw [hfplen, natFromDigits_padZeros, natFromDigits_natDigits,
      natFromDigits_natDigits]
    have hdm : 10 ^ p * ((rhe (q * 10 ^ p)).natAbs / 10 ^ p) +
        (rhe (q * 10 ^ p)).natAbs % 10 ^ p = (rhe (q * 10 ^ p)).natAbs :=
      Nat.div_add_mod _ _
    have h10 : ((10 : ℚ) ^ p) ≠ 0 := by positivity
    field_simp
    exact_mod_cast Nat.div_add_mod' (rhe (q * 10 ^ p)).natAbs (10 ^ p)
  by_cases hneg : rhe (q * 10 ^ p) < 0
  · have hfl : fmtFixedL p q = '-' ::
        (natDigits ((rhe (q * 10 ^ p)).natAbs / 10 ^ p) ++
          '.' :: padZeros p (natDigits ((rhe (q * 10 ^ p)).natAbs % 10 ^ p))) := by
      simp only [fmtFixedL, if_pos hneg, List.singleton_append, List.cons_append,
        List.nil_append]
    rw [hfl, pyFloatCore_neg_digits_frac _ _ hipne hipd hfpd, hval]
    have hcast : (((rhe (q * 10 ^ p)).natAbs : ℚ)) = -((rhe (q * 10 ^ p) : ℚ)) := by
      rw [Nat.cast_natAbs, abs_of_neg hneg]
      push_cast
      ring
    rw [roundFixed, hcast]
    congr 1
    ring
  · have hfl : fmtFixedL p q =
        natDigits ((rhe (q * 10 ^ p)).natAbs / 10 ^ p) ++
          '.' :: padZeros p (natDigits ((rhe (q * 10 ^ p)).natAbs % 10 ^ p)) := by
      simp only [fmtFixedL, if_neg hneg, List.nil_append]
    rw [hfl, pyFloatCore_digits_frac _ _ hipne hipd hfpd, hval]
    have hcast : (((rhe (q * 10 ^ p)).natAbs : ℚ)) = ((rhe (q * 10 ^ p) : ℚ)) := by
      rw [Nat.cast_natAbs, abs_of_nonneg (not_lt.mp hneg)]
    rw [roundFixed, hcast]

theorem parseSampleRow_saveRow (r : Sample) :
    parseSampleRow storeHeader (saveRow r) = some (round3Sample r) := by
  have h0 : getField storeHeader (saveRow r) "echo_us" =
      some (fmtFixed 3 r.echo_us) := rfl
  have h1 : getField storeHeader (saveRow r) "label" =
      some (intToStr r.label) := rfl
  have h2 : getFieldD storeHeader (saveRow r) "fresh_anchor" "1400" =
      some (fmtFixed 3 r.fresh_anchor) := rfl
  have h3 : getFieldD storeHeader (saveRow r) "spoil_anchor" "2600" =
      some (fmtFixed 3 r.spoil_anchor) := rfl
  simp [parseSampleRow, h0, h1, h2, h3,
    show (fmtFixed 3 r.echo_us).data = fmtFixedL 3 r.echo_us from rfl,
    show (intToStr r.label).data = intToStrL r.label from rfl,
    show (fmtFixed 3 r.fresh_anchor).data = fmtFixedL 3 r.fresh_anchor from rfl,
    show (fmtFixed 3 r.spoil_anchor).data = fmtFixedL 3 r.spoil_anchor from rfl,
    pyFloatCore_fmtFixedL 3 (by norm_num), pyIntCore_intToStrL, round3Sample]

/-- C4: saving a list of labeled samples and loading it back returns the
list with every float field rounded to 3 decimals and every label exact,
element by element in file order. -/
theorem load_save_roundtrip (rows : List Sample) :
    load_csv (save_csv rows) = some (rows.map round3Sample) := by
  simp only [save_csv, load_csv]
  induction rows with
  | nil => rfl
  | cons r rs ih =>
    simp only [List.map_cons, List.mapM_cons, parseSampleRow_saveRow, ih]
    rfl

theorem rhe_zero : rhe 0 = 0 := by
  have hq : qfloor (0 : ℚ) = 0 := by
    simp only [qfloor]
    norm_num
  simp only [rhe, hq]
  norm_num

theorem fmt6_zero : fmtFixed 6 (0 : ℚ) = "0.000000" := by
  have h1 : (0 : ℚ) * 10 ^ 6 = 0 := by norm_num
  have h2 : rhe ((0 : ℚ) * 10 ^ 6) = 0 := by rw [h1, rhe_zero]
  show String.mk (fmtFixedL 6 0) = "0.000000"
  simp only [fmtFixedL, h2]
  decide

theorem str_append_assoc (a b c : String) : a ++ b ++ c = a ++ (b ++ c) := by
  cases a; cases b; cases c
  exact congrArg String.mk (List.append_assoc _ _ _)

theorem joinComma_append_singleton (l : List String) (x : String) (h : l ≠ []) :
    joinComma (l ++ [x]) = joinComma l ++ "," ++ x := by
  induction l with
  | nil => exact absurd rfl h
  | cons y l ihl =>
    cases l with
    | nil => rfl
    | cons z l2 =>
      show y ++ "," ++ joinComma ((z :: l2) ++ [x]) =
        (y ++ "," ++ joinComma (z :: l2)) ++ "," ++ x
      rw [ihl (List.cons_ne_nil z l2)]
      simp only [str_append_assoc]

theorem isFixedP_fmtFixedL (p : ℕ) (hp : 1 ≤ p) (q : ℚ) :
    isFixedP p (fmtFixedL p q) = true := by
  have hipne := natDigits_ne_nil ((rhe (q * 10 ^ p)).natAbs / 10 ^ p)
  have hipd := natDigits_isDigit ((rhe (q * 10 ^ p)).natAbs / 10 ^ p)
  have hfpd := padZeros_isDigit p _
    (natDigits_isDigit ((rhe (q * 10 ^ p)).natAbs % 10 ^ p))
  have hmod : (rhe (q * 10 ^ p)).natAbs % 10 ^ p < 10 ^ p :=
    Nat.mod_lt _ (pow_pos (by norm_num) p)
  have hfplen := padZeros_length p
    (natDigits ((rhe (q * 10 ^ p)).natAbs % 10 ^ p))
    (natDigits_len_le p _ hmod hp)
  have hstrip : stripNeg (fmtFixedL p q) =
      natDigits ((rhe (q * 10 ^ p)).natAbs / 10 ^ p) ++
        '.' :: padZeros p (natDigits ((rhe (q * 10 ^ p)).natAbs % 10 ^ p)) := by
    by_cases hneg : rhe (q * 10 ^ p) < 0
    · simp only [fmtFixedL, if_pos hneg, List.singleton_append, List.cons_append,
        List.nil_append, stripNeg, List.head?, List.tail]
      simp
    · obtain ⟨c, cs, hcs⟩ := List.exists_cons_of_ne_nil hipne
      have hc : c.isDigit = true := by
        rw [hcs] at hipd
        exact hipd c (List.mem_cons_self _ _)
      have hcm : ¬ c = '-' := by
        intro hcm
        subst hcm
        exact absurd hc (by decide)
      simp only [fmtFixedL, if_neg hneg, List.nil_append, hcs, List.cons_append,
        stripNeg, List.head?]
      rw [if_neg (by simpa using hcm)]
  simp only [isFixedP, hstrip]
  rw [takeDigits_append _ _ hipd, takeDigits_nondigit '.' _ (by decide)]
  simp only [List.append_nil, Bool.and_eq_true, Bool.not_eq_true']
  refine ⟨by simpa [List.isEmpty_iff] using hipne, ?_⟩
  simp only [Bool.and_eq_true, List.all_eq_true]
  exact ⟨hfpd, by simp [hfplen]⟩

/-- C5: `emit_W_line w b` is the string `W:` followed by 11 comma-joined
numeric fields — field 0 is `w` at 6 decimals, fields 1-9 are the literal
`0.000000`, field 10 is `b` at 6 decimals — and every field has the
fixed-point shape with exactly 6 decimal digits. -/
theorem emit_W_line_shape (w b : ℚ) :
    emit_W_line w b = "W:" ++ joinComma
      (fmtFixed 6 w :: (List.replicate 9 "0.000000" ++ [fmtFixed 6 b])) ∧
    (fmtFixed 6 w :: (List.replicate 9 "0.000000" ++ [fmtFixed 6 b])).length = 11 ∧
    ∀ f ∈ fmtFixed 6 w :: (List.replicate 9 "0.000000" ++ [fmtFixed 6 b]),
      isFixedP 6 f.toList = true := by
  refine ⟨?_, ?_, ?_⟩
  · have hw : ((List.replicate 10 (0 : ℚ)).set 0 w) =
        w :: List.replicate 9 (0 : ℚ) := rfl
    simp only [emit_W_line, hw, List.map_cons, List.map_replicate, fmt6_zero]
    rw [show fmtFixed 6 w :: (List.replicate 9 "0.000000" ++ [fmtFixed 6 b]) =
      (fmtFixed 6 w :: List.replicate 9 "0.000000") ++ [fmtFixed 6 b] from by simp]
    rw [joinComma_append_singleton _ _ (List.cons_ne_nil _ _)]
    simp only [str_append_assoc]
  · simp
  · intro f hf
    rcases List.mem_cons.mp hf with h | h
    · rw [h]
      exact isFixedP_fmtFixedL 6 (by norm_num) w
    · rcases List.mem_append.mp h with h2 | h2
      · rw [List.eq_of_mem_replicate h2]
        decide
      · rw [List.mem_singleton.mp h2]
        exact isFixedP_fmtFixedL 6 (by norm_num) b

theorem emit_W_line_shape_witness :
    isFixedP 6 (fmtFixed 6 (7 : ℚ)).toList = true :=
  (emit_W_line_shape 7 0).2.2 (fmtFixed 6 7) (List.mem_cons_self _ _)

theorem parse_device_csv_line_builds (line : String) (t e m fr c fa sa : ℚ)
    (hlen : 7 ≤ (csvParts line).length)
    (h0 : pyFloatCore ((csvParts line).getD 0 []) = some t)
    (h1 : pyFloatCore ((csvParts line).getD 1 []) = some e)
    (h2 : pyFloatCore ((csvParts line).getD 2 []) = some m)
    (h3 : pyFloatCore ((csvParts line).getD 3 []) = some fr)
    (h4 : pyFloatCore ((csvParts line).getD 4 []) = some c)
    (h5 : pyFloatCore ((csvParts line).getD 5 []) = some fa)
    (h6 : pyFloatCore ((csvParts line).getD 6 []) = some sa) :
    parse_device_csv_line line = some ⟨pyTruncF t, e, m, fr, c, fa, sa⟩ := by
  simp only [parse_device_csv_line, if_neg (by omega : ¬ (csvParts line).length < 7),
    h0, h1, h2, h3, h4, h5, h6]

theorem parse_device_csv_line_isSome (line : String) :
    (parse_device_csv_line line).isSome = true ↔
      (7 ≤ (csvParts line).length ∧
       (pyFloatCore ((csvParts line).getD 0 [])).isSome = true ∧
       (pyFloatCore ((csvParts line).getD 1 [])).isSome = true ∧
       (pyFloatCore ((csvParts line).getD 2 [])).isSome = true ∧
       (pyFloatCore ((csvParts line).getD 3 [])).isSome = true ∧
       (pyFloatCore ((csvParts line).getD 4 [])).isSome = true ∧
       (pyFloatCore ((csvParts line).getD 5 [])).isSome = true ∧
       (pyFloatCore ((csvParts line).getD 6 [])).isSome = true) := by
  by_cases hl : (csvParts line).length < 7
  · simp only [parse_device_csv_line, if_pos hl, Option.isSome_none,
      Bool.false_eq_true, false_iff]
    intro hcon
    exact absurd hcon.1 (by omega)
  · simp only [parse_device_csv_line, if_neg hl]
    cases h0 : pyFloatCore ((csvParts line).getD 0 []) with
    | none => simp [h0]
    | some v0 =>
    cases h1 : pyFloatCore ((csvParts line).getD 1 []) with
    | none => simp [h0, h1]
    | some v1 =>
    cases h2 : pyFloatCore ((csvParts line).getD 2 []) with
    | none => simp [h0, h1, h2]
    | some v2 =>
    cases h3 : pyFloatCore ((csvParts line).getD 3 []) with
    | none => simp [h0, h1, h2, h3]
    | some v3 =>
    cases h4 : pyFloatCore ((csvParts line).getD 4 []) with
    | none => simp [h0, h1, h2, h3, h4]
    | some v4 =>
    cases h5 : pyFloatCore ((csvParts line).getD 5 []) with
    | none => simp [h0, h1, h2, h3, h4, h5]
    | some v5 =>
    cases h6 : pyFloatCore ((csvParts line).getD 6 []) with
    | none => simp [h0, h1, h2, h3, h4, h5, h6]
    | some v6 =>
      simp only [h0, h1, h2, h3, h4, h5, h6, Option.isSome_some, and_true,
        true_iff, true_and]
      omega

/-- C2 amended: the structured-CSV parser produces a record exactly when
the line splits into at least 7 comma-separated fields whose first seven
each parse as a number; fewer than 7 fields, or any of the first seven
failing numeric parse, yields `none`; the record carries the parsed
values, the timestamp truncated from a float parse to an integer; and the
parser is a total function, so no string input raises. -/
theorem parse_device_csv_line_spec (line : String) :
    ((parse_device_csv_line line).isSome = true ↔
      (7 ≤ (csvParts line).length ∧
       (pyFloatCore ((csvParts line).getD 0 [])).isSome = true ∧
       (pyFloatCore ((csvParts line).getD 1 [])).isSome = true ∧
       (pyFloatCore ((csvParts line).getD 2 [])).isSome = true ∧
       (pyFloatCore ((csvParts line).getD 3 [])).isSome = true ∧
       (pyFloatCore ((csvParts line).getD 4 [])).isSome = true ∧
       (pyFloatCore ((csvParts line).getD 5 [])).isSome = true ∧
       (pyFloatCore ((csvParts line).getD 6 [])).isSome = true)) ∧
    (∀ t e m fr c fa sa : ℚ, 7 ≤ (csvParts line).length →
      pyFloatCore ((csvParts line).getD 0 []) = some t →
      pyFloatCore ((csvParts line).getD 1 []) = some e →
      pyFloatCore ((csvParts line).getD 2 []) = some m →
      pyFloatCore ((csvParts line).getD 3 []) = some fr →
      pyFloatCore ((csvParts line).getD 4 []) = some c →
      pyFloatCore ((csvParts line).getD 5 []) = some fa →
      pyFloatCore ((csvParts line).getD 6 []) = some sa →
      parse_device_csv_line line = some ⟨pyTruncF t, e, m, fr, c, fa, sa⟩) :=
  ⟨parse_device_csv_line_isSome line,
    fun t e m fr c fa sa => parse_device_csv_line_builds line t e m fr c fa sa⟩

/-- C2 counterexample: the line `1,2,3,4,5,6,7,oops` has 8 fields, and its
8th field is not numeric, yet the parser produces a record — the code only
rejects lines with fewer than 7 fields and ignores everything after the
seventh, so "exactly 7 fields, each numeric" is not required. -/
theorem parse_device_csv_line_extra_field :
    (parse_device_csv_line "1,2,3,4,5,6,7,oops").isSome = true ∧
    (csvParts "1,2,3,4,5,6,7,oops").length = 8 ∧
    (pyFloatCore ((csvParts "1,2,3,4,5,6,7,oops").getD 7 [])).isSome = false := by
  refine ⟨?_, ?_, ?_⟩ <;> decide

theorem parse_device_csv_line_spec_witness :
    parse_device_csv_line "1,2,3,4,5,6,7" = some ⟨1, 2, 3, 4, 5, 6, 7⟩ := by
  have hp : csvParts "1,2,3,4,5,6,7" =
      [['1'], ['2'], ['3'], ['4'], ['5'], ['6'], ['7']] := by decide
  have h := (parse_device_csv_line_spec "1,2,3,4,5,6,7").2
      ((natFromDigits ['1'] : ℚ)) ((natFromDigits ['2'] : ℚ))
      ((natFromDigits ['3'] : ℚ)) ((natFromDigits ['4'] : ℚ))
      ((natFromDigits ['5'] : ℚ)) ((natFromDigits ['6'] : ℚ))
      ((natFromDigits ['7'] : ℚ))
      (by rw [hp]; norm_num)
      (by rw [hp]; exact pyFloatCore_digits _ (by decide) (by decide))
      (by rw [hp]; exact pyFloatCore_digits _ (by decide) (by decide))
      (by rw [hp]; exact pyFloatCore_digits _ (by decide) (by decide))
      (by rw [hp]; exact pyFloatCore_digits _ (by decide) (by decide))
      (by rw [hp]; exact pyFloatCore_digits _ (by decide) (by decide))
      (by rw [hp]; exact pyFloatCore_digits _ (by decide) (by decide))
      (by rw [hp]; exact pyFloatCore_digits _ (by decide) (by decide))
  rw [h]
  have hn1 : natFromDigits ['1'] = 1 := by decide
  have hn2 : natFromDigits ['2'] = 2 := by decide
  have hn3 : natFromDigits ['3'] = 3 := by decide
  have hn4 : natFromDigits ['4'] = 4 := by decide
  have hn5 : natFromDigits ['5'] = 5 := by decide
  have hn6 : natFromDigits ['6'] = 6 := by decide
  have hn7 : natFromDigits ['7'] = 7 := by decide
  have htr : pyTruncF ((1 : ℕ) : ℚ) = 1 := by
    have hq1 : qfloor (1 : ℚ) = 1 := by
      simp only [qfloor]
      norm_num
    simp [pyTruncF, hq1]
  simp only [hn1, hn2, hn3, hn4, hn5, hn6, hn7, htr]
  norm_num

/-- Two labeled samples covering both classes, for exercising the fitter
theorems. -/
def demoRows : List Sample :=
  [⟨1000, 0, 1400, 2600⟩, ⟨2600, 1, 1400, 2600⟩]

/-- The fit input `train_from_csv` computes on `demoRows`. -/
def demoFit : FitInput :=
  ⟨npMedian (demoRows.map (fun r => r.fresh_anchor)),
    npMedian (demoRows.map (fun r => r.spoil_anchor)),
    demoRows.map (fun r =>
      scale_echo r.echo_us (npMedian (demoRows.map (fun s => s.fresh_anchor)))
        (npMedian (demoRows.map (fun s => s.spoil_anchor)))),
    demoRows.map (fun r => r.label)⟩

/-- C6: for every non-empty sample list the fitter runs its anchor and
normalization stages, and whatever it hands to the logistic solver uses
the median fresh anchor and median spoil anchor as the anchor statistics,
with each sample's single feature equal to `scale_echo` of its echo at
those medians. -/
theorem train_from_csv_median_features (rows : List Sample)
    (hne : rows ≠ []) :
    (TrainStep.anchors ∈ (train_from_csv rows).1 ∧
     TrainStep.normalize ∈ (train_from_csv rows).1) ∧
    ∀ fi : FitInput, (train_from_csv rows).2 = some fi →
      fi.fa = npMedian (rows.map (fun r => r.fresh_anchor)) ∧
      fi.sa = npMedian (rows.map (fun r => r.spoil_anchor)) ∧
      fi.X = rows.map (fun r => scale_echo r.echo_us fi.fa fi.sa) := by
  simp only [train_from_csv, if_neg hne]
  by_cases hc : ((rows.map (fun r => r.label)).dedup).length < 2
  · rw [if_pos hc]
    refine ⟨⟨by simp, by simp⟩, ?_⟩
    intro fi h
    exact absurd h (by simp)
  · rw [if_neg hc]
    refine ⟨⟨by simp, by simp⟩, ?_⟩
    intro fi h
    obtain rfl : _ = fi := Option.some.inj h
    exact ⟨rfl, rfl, rfl⟩

theorem train_from_csv_median_features_witness :
    demoFit.fa = npMedian (demoRows.map (fun r => r.fresh_anchor)) ∧
    demoFit.sa = npMedian (demoRows.map (fun r => r.spoil_anchor)) ∧
    demoFit.X = demoRows.map (fun r => scale_echo r.echo_us demoFit.fa demoFit.sa) ∧
    demoFit.fa = 1400 ∧ demoFit.sa = 2600 ∧ demoFit.X = [1, 0] := by
  have h := (train_from_csv_median_features demoRows (by decide)).2 demoFit rfl
  refine ⟨h.1, h.2.1, h.2.2, ?_, ?_, ?_⟩
  · show npMedian (demoRows.map (fun r => r.fresh_anchor)) = 1400
    norm_num [demoRows, npMedian, sortQ, insertSorted]
  · show npMedian (demoRows.map (fun r => r.spoil_anchor)) = 2600
    norm_num [demoRows, npMedian, sortQ, insertSorted]
  · show demoRows.map (fun r =>
        scale_echo r.echo_us (npMedian (demoRows.map (fun s => s.fresh_anchor)))
          (npMedian (demoRows.map (fun s => s.spoil_anchor)))) = [1, 0]
    have hfa : npMedian (demoRows.map (fun s => s.fresh_anchor)) = 1400 := by
      norm_num [demoRows, npMedian, sortQ, insertSorted]
    have hsa : npMedian (demoRows.map (fun s => s.spoil_anchor)) = 2600 := by
      norm_num [demoRows, npMedian, sortQ, insertSorted]
    rw [hfa, hsa]
    have h1 : scale_echo 1000 1400 2600 = 1 := by
      norm_num [scale_echo, perturbSpoil, scaleLo, scaleHi, echo_span, clampPy]
    have h2 : scale_echo 2600 1400 2600 = 0 := by
      norm_num [scale_echo, perturbSpoil, scaleLo, scaleHi, echo_span, clampPy]
    simp [demoRows, h1, h2]

/-- C7 counterexample: on a one-sample (single-class) list the fitter does
fail to produce a model, but the normalization stage has already run by
the time the class check fires — the code computes the anchor medians and
normalizes every echo before checking `len(set(y)) < 2` — contradicting
"performs no further computation (no normalization ... runs)". -/
theorem train_single_class_normalize_runs :
    TrainStep.normalize ∈ (train_from_csv [⟨1000, 0, 1400, 2600⟩]).1 ∧
    (train_from_csv [⟨1000, 0, 1400, 2600⟩]).2 = none := by
  refine ⟨?_, ?_⟩ <;> decide

/-- C7 amended: for every sample list with fewer than two distinct label
classes, fitting fails — no model is produced and the solver stage never
runs — though for a non-empty such list the anchor medians and the
normalization are still computed before the class check. -/
theorem train_single_class_fails (rows : List Sample)
    (h : ((rows.map (fun r => r.label)).dedup).length < 2) :
    (train_from_csv rows).2 = none ∧
    TrainStep.solve ∉ (train_from_csv rows).1 := by
  by_cases he : rows = []
  · subst he
    refine ⟨rfl, by decide⟩
  · constructor
    · simp only [train_from_csv, if_neg he, if_pos h]
    · simp only [train_from_csv, if_neg he, if_pos h]
      decide

theorem train_single_class_fails_witness :
    (train_from_csv [⟨1000, 0, 1400, 2600⟩]).2 = none ∧
    TrainStep.solve ∉ (train_from_csv [⟨1000, 0, 1400, 2600⟩]).1 :=
  train_single_class_fails [⟨1000, 0, 1400, 2600⟩] (by decide)

end Fruitell
